import Mathlib

/-!
# HexStreamer: hex text ⇄ fixed-width unsigned integers

A shallow embedding of `HexStreamer.cpp`: the class template `HexIntClass<T, S>`
with its stream insertion (`operator<<`, encode) and extraction (`operator>>`,
decode), together with the parts of the C/C++ standard library the two operators
call (`std::istream::read`, `strtol`, `std::ostream::operator<<(int)` with the
classic "C" locale).

Data model: `int` is 32 bits and `long` is 64 bits wide (LP64).  An unsigned
integer type `T` is represented by its bit width; its values are the naturals
below `2 ^ bits`.  Streams are represented by explicit state: an input stream by
its unread characters and its error bits, an output stream by the characters
written so far, its formatting state and its error bits.  Streams keep the default
exception mask, so no stream operation throws.
-/

namespace HexStreamer

/-! ## Platform constants -/

/-- Width of `int` in bits. -/
def INT_BITS : Nat := 32

/-- Width of `long` in bits. -/
def LONG_BITS : Nat := 64

/-- Largest value of `long`. -/
def LONG_MAX : Int := 2 ^ (LONG_BITS - 1) - 1

/-- Smallest value of `long`. -/
def LONG_MIN : Int := -(2 ^ (LONG_BITS - 1))

/-! ## Character classification ("C" locale) -/

/-- The C function `isspace`: space, and the controls `\t \n \v \f \r`. -/
def isspace (c : Char) : Bool :=
  c.toNat = 32 || (9 ≤ c.toNat && c.toNat ≤ 13)

/-- The value of a character as a digit for `strtol`: `0-9` are 0..9 and the
letters of either case are 10..35. -/
def digitValue (c : Char) : Option Nat :=
  if 48 ≤ c.toNat ∧ c.toNat ≤ 57 then some (c.toNat - 48)
  else if 97 ≤ c.toNat ∧ c.toNat ≤ 122 then some (c.toNat - 97 + 10)
  else if 65 ≤ c.toNat ∧ c.toNat ≤ 90 then some (c.toNat - 65 + 10)
  else none

/-- A character is a digit of the given base. -/
def isDigitOf (base : Nat) (c : Char) : Bool :=
  match digitValue c with
  | some d => decide (d < base)
  | none => false

/-! ## strtol -/

/-- The digit loop of `strtol`: consumes digits of the base from the left and
stops at the first character that is not one. The magnitude is accumulated
without bound here; `strtol` clamps it afterwards. -/
def accumulate (base : Nat) : Nat → List Char → Nat
  | acc, [] => acc
  | acc, c :: cs =>
    match digitValue c with
    | some d => if d < base then accumulate base (acc * base + d) cs else acc
    | none => acc

/-- The optional sign of `strtol`: whether the number is negated, and the text after
the sign. -/
def takeSign : List Char → Bool × List Char
  | [] => (false, [])
  | c :: cs => if c = '-' then (true, cs) else if c = '+' then (false, cs) else (false, c :: cs)

/-- The optional `0x`/`0X` prefix of `strtol` in base 16: it is skipped when a
hexadecimal digit follows it (otherwise the subject sequence is the `0` alone). -/
def takePrefix (base : Nat) : List Char → List Char
  | c0 :: c1 :: c2 :: cs =>
    if base = 16 ∧ c0 = '0' ∧ (c1 = 'x' ∨ c1 = 'X') ∧ isDigitOf 16 c2 = true then c2 :: cs
    else c0 :: c1 :: c2 :: cs
  | s => s

/-- The C function `strtol(nptr, NULL, base)` for a base in 2..36: skips white
space, takes an optional sign and (base 16) an optional `0x`, converts the longest
run of digits, and clamps the result to the range of `long`. With no digits the
result is 0. -/
def strtol (nptr : List Char) (base : Nat) : Int :=
  let s := nptr.dropWhile isspace
  let sg := takeSign s
  let n := accumulate base 0 (takePrefix base sg.2)
  if sg.1 then
    (if (2 : Int) ^ (LONG_BITS - 1) < (n : Int) then LONG_MIN else -(n : Int))
  else
    (if LONG_MAX < (n : Int) then LONG_MAX else (n : Int))

/-- The C string held in a character array: the characters before the first NUL. -/
def cstr (buf : List Char) : List Char :=
  buf.takeWhile (fun c => c != Char.ofNat 0)

/-! ## Input stream -/

/-- State of a `std::istream` over a string: the unread characters and the error
bits. -/
structure IStream where
  rest : List Char
  failbit : Bool
  eofbit : Bool
  badbit : Bool
deriving DecidableEq

namespace IStream

/-- A fresh `std::istringstream` over a text. -/
def ofText (s : List Char) : IStream :=
  { rest := s, failbit := false, eofbit := false, badbit := false }

/-- No error bit is set: `good()`. -/
def good (s : IStream) : Bool := !s.failbit && !s.eofbit && !s.badbit

/-- Either `failbit` or `badbit` is set: `fail()`. -/
def fail (s : IStream) : Bool := s.failbit || s.badbit

/-- The conversion of a stream to `bool`: `!fail()`. -/
def toBool (s : IStream) : Bool := !s.fail

/-- The unformatted input function `read(buf, n)`: on a stream that is not good it
sets `failbit` and extracts nothing; otherwise it extracts `n` characters, or, when
fewer are left, all of them and sets `eofbit` and `failbit`. Returns the stream
and the characters stored. -/
def read (s : IStream) (n : Nat) : IStream × List Char :=
  if s.good then
    if n ≤ s.rest.length then
      ({ s with rest := s.rest.drop n }, s.rest.take n)
    else
      ({ s with rest := [], failbit := true, eofbit := true }, s.rest)
  else
    ({ s with failbit := true }, [])

end IStream

/-! ## The class template -/

/-- An instance of `HexIntClass<T, S>` for an unsigned `T` of `bits` bits: the
member `m_data`. -/
structure HexIntClass (bits : Nat) (S : Nat) where
  m_data : Nat
deriving DecidableEq

/-- The conversion `(T)x` of a `long` to the unsigned type of `bits` bits. -/
def castT (bits : Nat) (x : Int) : Nat := (x % (2 : Int) ^ bits).toNat

namespace HexIntClass

/-- The default constructor: `m_data(0)`. -/
def new (bits S : Nat) : HexIntClass bits S := { m_data := 0 }

/-- The accessor `data()`. -/
def data {bits S : Nat} (D : HexIntClass bits S) : Nat := D.m_data

/-- The extraction `operator>>(is, D)`: reads `S` characters and, when the read
succeeded, stores the `strtol` of the buffer, converted to `T`. -/
def extract {bits S : Nat} (is : IStream) (D : HexIntClass bits S) :
    IStream × HexIntClass bits S :=
  let r := is.read S
  if r.1.toBool then
    (r.1, { m_data := castT bits (strtol (cstr r.2) 16) })
  else
    (r.1, D)

end HexIntClass

/-- The typedef `HexInt8`. -/
abbrev HexInt8 := HexIntClass 8 2

/-- The typedef `HexInt16`. -/
abbrev HexInt16 := HexIntClass 16 4

/-- The typedef `HexInt32`. -/
abbrev HexInt32 := HexIntClass 32 8

/-- The three predefined conversion types, as (bit width, digit count). -/
def Canonical (bits S : Nat) : Prop :=
  (bits = 8 ∧ S = 2) ∨ (bits = 16 ∧ S = 4) ∨ (bits = 32 ∧ S = 8)

instance (bits S : Nat) : Decidable (Canonical bits S) := by
  unfold Canonical; infer_instance

/-! ## Output stream -/

/-- The format flags `std::ios_base::fmtflags`, one field per flag bit. -/
structure FmtFlags where
  boolalpha : Bool
  dec : Bool
  fixed : Bool
  hex : Bool
  internal : Bool
  left : Bool
  oct : Bool
  right : Bool
  scientific : Bool
  showbase : Bool
  showpoint : Bool
  showpos : Bool
  skipws : Bool
  unitbuf : Bool
  uppercase : Bool
deriving DecidableEq

namespace FmtFlags

/-- The flags of a freshly initialised stream: `skipws | dec`. -/
def init : FmtFlags :=
  { boolalpha := false, dec := true, fixed := false, hex := false, internal := false,
    left := false, oct := false, right := false, scientific := false, showbase := false,
    showpoint := false, showpos := false, skipws := true, unitbuf := false,
    uppercase := false }

/-- The call `setf(hex, basefield)`: clears the base field, then sets `hex`. -/
def setHexBase (f : FmtFlags) : FmtFlags :=
  { f with dec := false, oct := false, hex := true }

/-- The call `setf(uppercase)`. -/
def setUppercase (f : FmtFlags) : FmtFlags :=
  { f with uppercase := true }

/-- The base field equals `hex`. -/
def isHex (f : FmtFlags) : Bool := f.hex && !f.dec && !f.oct

/-- The base field equals `oct`. -/
def isOct (f : FmtFlags) : Bool := f.oct && !f.dec && !f.hex

/-- The adjust field equals `left`. -/
def isLeft (f : FmtFlags) : Bool := f.left && !f.right && !f.internal

/-- The adjust field equals `internal`. -/
def isInternal (f : FmtFlags) : Bool := f.internal && !f.left && !f.right

end FmtFlags

/-- State of a `std::ostream`: the characters written so far, the formatting state
(flags, fill character, field width) and the error bits. The stream buffer accepts
every character, and the exception mask is the default `goodbit`, so setting an
error bit throws nothing. -/
structure OStream where
  out : List Char
  flags : FmtFlags
  fill : Char
  width : Nat
  failbit : Bool
  eofbit : Bool
  badbit : Bool
deriving DecidableEq

/-- The character of a digit value: `0-9`, then letters of the requested case. -/
def digitChar (upper : Bool) (d : Nat) : Char :=
  if d < 10 then Char.ofNat (48 + d)
  else if upper then Char.ofNat (55 + d) else Char.ofNat (87 + d)

/-- The conversion loop of an unsigned number to text: emits the lowest digit in
front of the text so far, divides, and stops when the quotient is 0. The first
argument bounds the number of digits. -/
def digitsLoop (base : Nat) (upper : Bool) : Nat → Nat → List Char → List Char
  | 0, _, acc => acc
  | fuel + 1, v, acc =>
    if v / base = 0 then digitChar upper (v % base) :: acc
    else digitsLoop base upper fuel (v / base) (digitChar upper (v % base) :: acc)

/-- The digits of an `unsigned long` in a base of at least 2: at most `LONG_BITS`
of them. -/
def intToChar (base : Nat) (upper : Bool) (v : Nat) : List Char :=
  digitsLoop base upper LONG_BITS v []

/-- Stage 1 of `num_put` for a `long`: the sign or base prefix, and the digits.
Hexadecimal and octal print the value as `unsigned long`, with `0x`/`0X` or `0` in
front of a nonzero value under `showbase`; decimal prints a `-` or, under
`showpos`, a `+`. -/
def numText (f : FmtFlags) (v : Int) : List Char × List Char :=
  if f.isHex then
    let u := (v % (2 : Int) ^ LONG_BITS).toNat
    (if f.showbase && u != 0 then ['0', if f.uppercase then 'X' else 'x'] else [],
     intToChar 16 f.uppercase u)
  else if f.isOct then
    let u := (v % (2 : Int) ^ LONG_BITS).toNat
    (if f.showbase && u != 0 then ['0'] else [], intToChar 8 f.uppercase u)
  else
    (if v < 0 then ['-'] else if f.showpos then ['+'] else [],
     intToChar 10 f.uppercase v.natAbs)

/-- Stage 3 of `num_put`: pads to the field width with the fill character: after
the text under `left`, between sign or `0x` prefix and digits under `internal`,
in front otherwise. An octal `0` prefix counts as a digit. -/
def pad (f : FmtFlags) (fill : Char) (width : Nat) (pre digits : List Char) : List Char :=
  let padding := List.replicate (width - (pre.length + digits.length)) fill
  if f.isLeft then pre ++ digits ++ padding
  else if f.isInternal && (pre.length = 1 && pre != ['0'] || pre.length = 2) then
    pre ++ padding ++ digits
  else padding ++ pre ++ digits

namespace OStream

/-- A freshly initialised stream: flags `skipws | dec`, fill `' '`, width 0, no error
bit set. -/
def init : OStream :=
  { out := [], flags := FmtFlags.init, fill := ' ', width := 0,
    failbit := false, eofbit := false, badbit := false }

/-- No error bit is set: `good()`. -/
def good (os : OStream) : Bool := !os.failbit && !os.eofbit && !os.badbit

/-- The manipulator `std::setw(n)`. -/
def setw (os : OStream) (n : Nat) : OStream := { os with width := n }

/-- The manipulator `std::setfill(c)`. -/
def setfill (os : OStream) (c : Char) : OStream := { os with fill := c }

/-- The formatted insertion `os << n` of an `int`. The sentry lets it proceed only on
a good stream: then, under a hex or oct base the value is first converted to
`unsigned int`, then to `long`; the text is padded to the field width, written, and
the width is reset to 0. On a stream that is not good nothing is written and the
width is left as it is; the sentry sets `failbit` when `badbit` is set. -/
def putInt (os : OStream) (n : Int) : OStream :=
  if os.good then
    let v : Int := if os.flags.isHex || os.flags.isOct then n % (2 : Int) ^ INT_BITS else n
    let t := numText os.flags v
    { os with out := os.out ++ pad os.flags os.fill os.width t.1 t.2, width := 0 }
  else if os.badbit then { os with failbit := true }
  else os

end OStream

/-- The conversion `(int)x` of a value of an unsigned type: the value modulo
`2 ^ INT_BITS`, read as two's complement. -/
def toInt (v : Nat) : Int :=
  if v % 2 ^ INT_BITS < 2 ^ (INT_BITS - 1) then ((v % 2 ^ INT_BITS : Nat) : Int)
  else ((v % 2 ^ INT_BITS : Nat) : Int) - (2 : Int) ^ INT_BITS

namespace HexIntClass

/-- The insertion `operator<<(os, D)`: saves the flags, selects hex and uppercase,
sets width `S` and fill `'0'`, inserts `(int)D.data()`, and restores the flags. -/
def insert {bits S : Nat} (os : OStream) (D : HexIntClass bits S) : OStream :=
  let f := os.flags
  let os1 := { os with flags := os.flags.setHexBase }
  let os2 := { os1 with flags := os1.flags.setUppercase }
  let os3 := ((os2.setw S).setfill '0').putInt (toInt D.data)
  { os3 with flags := f }

end HexIntClass

namespace HexIntClass

/-- The comparison `operator==(const T& other)`: `other == data()`. -/
def eqValue {bits S : Nat} (D : HexIntClass bits S) (other : Nat) : Bool :=
  other == D.data

/-- The comparison `operator==(const HexIntClass& other)`: `other.data() == data()`. -/
def eq {bits S : Nat} (D other : HexIntClass bits S) : Bool :=
  other.data == D.data

/-- The call operator `operator()()`: returns `m_data`. -/
def call {bits S : Nat} (D : HexIntClass bits S) : Nat := D.m_data

end HexIntClass

/-- The chained extraction `is >> d1 >> d2 >> ...` into default-constructed objects
of the given (bit width, digit count): the final stream and the values held by the
objects afterwards. -/
def extractAll : List (Nat × Nat) → IStream → IStream × List Nat
  | [], is => (is, [])
  | (bits, S) :: more, is =>
    let r := HexIntClass.extract is (HexIntClass.new bits S)
    let q := extractAll more r.1
    (q.1, r.2.data :: q.2)

/-- The text of the value that `operator<<` hands to the stream: the digits of
`(unsigned int)(int)v`, in uppercase hexadecimal. -/
def insertedDigits (v : Nat) : List Char := intToChar 16 true (v % 2 ^ INT_BITS)

/-- The base prefix that `operator<<` makes the stream write: `0X` under `showbase`
for a nonzero value. -/
def insertedPrefix (f : FmtFlags) (v : Nat) : List Char :=
  if f.showbase && v % 2 ^ INT_BITS != 0 then ['0', 'X'] else []

/-! ## Reference notions of the specification -/

/-- A hexadecimal digit: one of `0-9`, `a-f`, `A-F`. -/
def isHexDigit (c : Char) : Bool :=
  (48 ≤ c.toNat && c.toNat ≤ 57) || (97 ≤ c.toNat && c.toNat ≤ 102) ||
    (65 ≤ c.toNat && c.toNat ≤ 70)

/-- The value 0..15 of a hexadecimal digit. -/
def hexDigitValue (c : Char) : Nat :=
  if c.toNat ≤ 57 then c.toNat - 48
  else if c.toNat ≤ 70 then c.toNat - 55
  else c.toNat - 87

/-- The base-16 number denoted by a text of hexadecimal digits, most significant
digit first. -/
def hexNumber (s : List Char) : Nat :=
  s.foldl (fun a c => 16 * a + hexDigitValue c) 0

/-- The uppercase hexadecimal digit of a value below 16. -/
def upperHexDigit (d : Nat) : Char :=
  "0123456789ABCDEF".toList.getD d '0'

/-- The reference text of a value: its base-16 representation in the digits `0-9`,
`A-F`, most significant first, left-padded with `'0'` to the width `S`. -/
def hexText (S v : Nat) : List Char :=
  List.leftpad S '0' ((Nat.digits 16 v).reverse.map upperHexDigit)

/-- An uppercase hexadecimal digit: one of `0-9`, `A-F`. -/
def isUpperHexDigit (c : Char) : Bool :=
  (48 ≤ c.toNat && c.toNat ≤ 57) || (65 ≤ c.toNat && c.toNat ≤ 70)

/-- The longest prefix of a buffer that consists of hexadecimal digits only. -/
def hexPrefix (buf : List Char) : List Char :=
  buf.takeWhile isHexDigit

/-- The buffer begins with white space or with a sign `+` or `-`. -/
def startsWithSpaceOrSign : List Char → Bool
  | [] => false
  | c :: _ => isspace c || c == '-' || c == '+'

/-- The buffer begins with `0x` or `0X` followed by a hexadecimal digit. -/
def startsWith0x : List Char → Bool
  | c0 :: c1 :: c2 :: _ => c0 == '0' && (c1 == 'x' || c1 == 'X') && isHexDigit c2
  | _ => false

/-! ## Characters and digits -/

theorem isDigitOf_sixteen (c : Char) : isDigitOf 16 c = isHexDigit c := by
  rw [Bool.eq_iff_iff]
  unfold isDigitOf digitValue isHexDigit
  split_ifs with h1 h2 h3 <;>
    simp only [Bool.or_eq_true, Bool.and_eq_true, decide_eq_true_eq, Bool.false_eq_true,
      false_iff] <;> omega

theorem digitValue_of_isHexDigit {c : Char} (h : isHexDigit c = true) :
    digitValue c = some (hexDigitValue c) ∧ hexDigitValue c < 16 := by
  unfold isHexDigit at h
  unfold digitValue hexDigitValue
  simp only [Bool.or_eq_true, Bool.and_eq_true, decide_eq_true_eq] at h
  split_ifs <;> simp <;> omega

theorem accumulate_eq_foldl (acc : Nat) (s : List Char) :
    accumulate 16 acc s = (hexPrefix s).foldl (fun a c => 16 * a + hexDigitValue c) acc := by
  induction s generalizing acc with
  | nil => rfl
  | cons c cs ih =>
    unfold hexPrefix at ih ⊢
    by_cases h : isHexDigit c = true
    · obtain ⟨h1, h2⟩ := digitValue_of_isHexDigit h
      simp only [accumulate, h1, h2, if_true, List.takeWhile_cons, h, List.foldl_cons, ih]
      rw [Nat.mul_comm]
    · have h3 : isDigitOf 16 c = false := by rw [isDigitOf_sixteen]; simpa using h
      unfold isDigitOf at h3
      simp only [Bool.not_eq_true] at h
      simp only [accumulate, List.takeWhile_cons, h, List.foldl_nil]
      cases hd : digitValue c with
      | none => rfl
      | some d =>
        rw [hd] at h3
        simp only [decide_eq_false_iff_not] at h3
        simp [h3]

theorem hexPrefix_cstr (buf : List Char) : hexPrefix (cstr buf) = hexPrefix buf := by
  unfold hexPrefix cstr
  induction buf with
  | nil => rfl
  | cons c cs ih =>
    by_cases hc : c = Char.ofNat 0
    · subst hc
      simp [List.takeWhile_cons, isHexDigit]
    · simp [List.takeWhile_cons, hc, ih]

/-! ## strtol on a buffer without white space, sign or `0x` in front -/

theorem takePrefix_of_not_0x (s : List Char) (h : startsWith0x s = false) :
    takePrefix 16 s = s := by
  match s, h with
  | [], _ => rfl
  | [_], _ => rfl
  | [_, _], _ => rfl
  | c0 :: c1 :: c2 :: cs, h =>
    show (if 16 = 16 ∧ c0 = '0' ∧ (c1 = 'x' ∨ c1 = 'X') ∧ isDigitOf 16 c2 = true then c2 :: cs
      else c0 :: c1 :: c2 :: cs) = c0 :: c1 :: c2 :: cs
    rw [if_neg]
    intro hc
    obtain ⟨_, h0, h1, h2⟩ := hc
    rw [isDigitOf_sixteen] at h2
    simp [startsWith0x, h0, h2] at h
    rcases h1 with h1 | h1
    · exact h.1 h1
    · exact h.2 h1

theorem dropWhile_takeSign_of_plain (s : List Char) (h : startsWithSpaceOrSign s = false) :
    takeSign (s.dropWhile isspace) = (false, s) := by
  cases s with
  | nil => rfl
  | cons c cs =>
    simp only [startsWithSpaceOrSign, Bool.or_eq_false_iff, beq_eq_false_iff_ne, ne_eq] at h
    obtain ⟨⟨h1, h2⟩, h3⟩ := h
    simp [List.dropWhile_cons, h1, takeSign, h2, h3]

theorem strtol_of_plain (s : List Char) (h1 : startsWithSpaceOrSign s = false)
    (h2 : startsWith0x s = false) :
    strtol s 16 = if LONG_MAX < (hexNumber (hexPrefix s) : Int) then LONG_MAX
      else (hexNumber (hexPrefix s) : Int) := by
  unfold strtol
  simp only [dropWhile_takeSign_of_plain s h1, takePrefix_of_not_0x s h2, accumulate_eq_foldl,
    Bool.false_eq_true, if_false]
  rfl

theorem startsWithSpaceOrSign_cstr (buf : List Char) (h : startsWithSpaceOrSign buf = false) :
    startsWithSpaceOrSign (cstr buf) = false := by
  cases buf with
  | nil => rfl
  | cons c cs =>
    by_cases hc : c = Char.ofNat 0
    · simp [cstr, List.takeWhile_cons, hc, startsWithSpaceOrSign]
    · simpa [cstr, List.takeWhile_cons, hc, startsWithSpaceOrSign] using h

theorem startsWith0x_cstr (buf : List Char) (h : startsWith0x buf = false) :
    startsWith0x (cstr buf) = false := by
  match buf, h with
  | [], _ => rfl
  | [c0], _ =>
    by_cases h0 : c0 = Char.ofNat 0 <;> simp [cstr, List.takeWhile_cons, h0, startsWith0x]
  | [c0, c1], _ =>
    by_cases h0 : c0 = Char.ofNat 0 <;> by_cases h1 : c1 = Char.ofNat 0 <;>
      simp [cstr, List.takeWhile_cons, h0, h1, startsWith0x]
  | c0 :: c1 :: c2 :: cs, h =>
    by_cases h0 : c0 = Char.ofNat 0
    · simp [cstr, List.takeWhile_cons, h0, startsWith0x]
    · by_cases h1 : c1 = Char.ofNat 0
      · simp [cstr, List.takeWhile_cons, h0, h1, startsWith0x]
      · by_cases h2 : c2 = Char.ofNat 0
        · simp [cstr, List.takeWhile_cons, h0, h1, h2, startsWith0x]
        · simpa [cstr, List.takeWhile_cons, h0, h1, h2, startsWith0x] using h

/-- The conversion of a buffer that starts with neither white space, nor a sign, nor
a `0x` prefix: the number denoted by its hexadecimal prefix, clamped to `LONG_MAX`. -/
theorem strtol_cstr_of_plain (buf : List Char) (h1 : startsWithSpaceOrSign buf = false)
    (h2 : startsWith0x buf = false) :
    strtol (cstr buf) 16 = if LONG_MAX < (hexNumber (hexPrefix buf) : Int) then LONG_MAX
      else (hexNumber (hexPrefix buf) : Int) := by
  rw [strtol_of_plain (cstr buf) (startsWithSpaceOrSign_cstr buf h1) (startsWith0x_cstr buf h2),
    hexPrefix_cstr]

/-! ## Texts of hexadecimal digits -/

theorem hexNumber_append_singleton (s : List Char) (c : Char) :
    hexNumber (s ++ [c]) = 16 * hexNumber s + hexDigitValue c := by
  simp [hexNumber, List.foldl_append]

theorem hexNumber_lt (s : List Char) (h : ∀ c ∈ s, isHexDigit c = true) :
    hexNumber s < 16 ^ s.length := by
  induction s using List.reverseRecOn with
  | nil => simp [hexNumber]
  | append_singleton s c ih =>
    have hs : hexNumber s < 16 ^ s.length := ih (fun d hd => h d (by simp [hd]))
    have hc := (digitValue_of_isHexDigit (h c (by simp))).2
    rw [hexNumber_append_singleton, List.length_append, List.length_singleton, pow_succ]
    omega

theorem hexPrefix_of_all (s : List Char) (h : ∀ c ∈ s, isHexDigit c = true) :
    hexPrefix s = s := by
  unfold hexPrefix
  exact List.takeWhile_eq_self_iff.mpr h

theorem not_space_sign_of_isHexDigit {c : Char} (h : isHexDigit c = true) :
    isspace c = false ∧ c ≠ '-' ∧ c ≠ '+' ∧ c ≠ 'x' ∧ c ≠ 'X' := by
  unfold isHexDigit at h
  simp only [Bool.or_eq_true, Bool.and_eq_true, decide_eq_true_eq] at h
  refine ⟨?_, ?_, ?_, ?_, ?_⟩
  · unfold isspace
    simp only [Bool.or_eq_false_iff, Bool.and_eq_false_iff, decide_eq_false_iff_not]
    omega
  all_goals
    intro hc
    subst hc
    revert h
    decide

theorem plain_of_all_hex (s : List Char) (h : ∀ c ∈ s, isHexDigit c = true) :
    startsWithSpaceOrSign s = false ∧ startsWith0x s = false := by
  constructor
  · cases s with
    | nil => rfl
    | cons c cs =>
      obtain ⟨h1, h2, h3, -, -⟩ := not_space_sign_of_isHexDigit (h c (by simp))
      simp [startsWithSpaceOrSign, h1, h2, h3]
  · match s, h with
    | [], _ => rfl
    | [_], _ => rfl
    | [_, _], _ => rfl
    | c0 :: c1 :: c2 :: cs, h =>
      obtain ⟨-, -, -, h4, h5⟩ := not_space_sign_of_isHexDigit (h c1 (by simp))
      simp [startsWith0x, h4, h5]

theorem castT_natCast (bits n : Nat) : castT bits (n : Int) = n % 2 ^ bits := by
  unfold castT
  have : ((n : Int) % (2 : Int) ^ bits) = ((n % 2 ^ bits : Nat) : Int) := by
    push_cast
    rfl
  rw [this, Int.toNat_natCast]

theorem canonical_pow {bits S : Nat} (h : Canonical bits S) :
    16 ^ S = 2 ^ bits ∧ bits ≤ 32 ∧ 1 ≤ S := by
  rcases h with ⟨rfl, rfl⟩ | ⟨rfl, rfl⟩ | ⟨rfl, rfl⟩ <;> norm_num

/-- The conversion of a text of hexadecimal digits that denotes a number below
`2 ^ 63`. -/
theorem strtol_cstr_of_all_hex (s : List Char) (h : ∀ c ∈ s, isHexDigit c = true)
    (hn : hexNumber s < 2 ^ 63) : strtol (cstr s) 16 = (hexNumber s : Int) := by
  obtain ⟨h1, h2⟩ := plain_of_all_hex s h
  rw [strtol_cstr_of_plain s h1 h2, hexPrefix_of_all s h, if_neg]
  unfold LONG_MAX LONG_BITS
  have : ((hexNumber s : Nat) : Int) < 2 ^ 63 := by exact_mod_cast hn
  norm_num
  omega

/-! ## The extraction operator -/

theorem extract_of_enough {bits S : Nat} (is : IStream) (D : HexIntClass bits S)
    (hg : is.good = true) (hS : S ≤ is.rest.length) :
    HexIntClass.extract is D =
      ({ is with rest := is.rest.drop S },
        { m_data := castT bits (strtol (cstr (is.rest.take S)) 16) }) := by
  have hf : is.failbit = false ∧ is.eofbit = false ∧ is.badbit = false := by
    simpa [IStream.good, and_assoc] using hg
  simp [HexIntClass.extract, IStream.read, hg, hS, IStream.toBool, IStream.fail, hf.1, hf.2.2]

theorem extract_of_short {bits S : Nat} (is : IStream) (D : HexIntClass bits S)
    (hS : is.rest.length < S) :
    (HexIntClass.extract is D).1.failbit = true ∧ (HexIntClass.extract is D).2 = D := by
  unfold HexIntClass.extract IStream.read
  by_cases hg : is.good = true
  · simp [hg, Nat.not_le.mpr hS, IStream.toBool, IStream.fail]
  · simp [hg, IStream.toBool, IStream.fail]

theorem extract_hex_field {bits S : Nat} (hc : Canonical bits S) (is : IStream)
    (D : HexIntClass bits S) (hg : is.good = true) (hS : S ≤ is.rest.length)
    (hh : ∀ c ∈ is.rest.take S, isHexDigit c = true) :
    HexIntClass.extract is D =
      ({ is with rest := is.rest.drop S }, { m_data := hexNumber (is.rest.take S) }) := by
  obtain ⟨hp, hb, -⟩ := canonical_pow hc
  have hlt := hexNumber_lt _ hh
  rw [List.length_take, Nat.min_eq_left hS, hp] at hlt
  have h32 : (2 : Nat) ^ bits ≤ 2 ^ 32 := Nat.pow_le_pow_right (by norm_num) hb
  rw [extract_of_enough is D hg hS, strtol_cstr_of_all_hex _ hh (by omega), castT_natCast,
    Nat.mod_eq_of_lt hlt]

/-! ## The insertion operator -/

theorem digitChar_upper {d : Nat} (h : d < 16) : digitChar true d = upperHexDigit d := by
  interval_cases d <;> rfl

theorem upperHexDigit_spec {d : Nat} (h : d < 16) :
    isHexDigit (upperHexDigit d) = true ∧ hexDigitValue (upperHexDigit d) = d := by
  interval_cases d <;> exact ⟨rfl, rfl⟩

theorem digitsLoop_eq_digits (fuel v : Nat) (acc : List Char) (h0 : 0 < v)
    (hv : v < 16 ^ fuel) :
    digitsLoop 16 true fuel v acc = (Nat.digits 16 v).reverse.map upperHexDigit ++ acc := by
  induction fuel generalizing v acc with
  | zero => simp at hv; omega
  | succ fuel ih =>
    have hd : digitChar true (v % 16) = upperHexDigit (v % 16) :=
      digitChar_upper (Nat.mod_lt _ (by norm_num))
    rw [Nat.digits_def' (by norm_num) h0]
    unfold digitsLoop
    by_cases hq : v / 16 = 0
    · simp [hq, hd]
    · have hq0 : 0 < v / 16 := Nat.pos_of_ne_zero hq
      have hq1 : v / 16 < 16 ^ fuel := by
        rw [pow_succ] at hv
        omega
      rw [if_neg hq, ih (v / 16) _ hq0 hq1, hd]
      simp

theorem intToChar_hex_upper (v : Nat) (hv : v < 2 ^ 32) :
    intToChar 16 true v = if v = 0 then ['0'] else (Nat.digits 16 v).reverse.map upperHexDigit := by
  unfold intToChar LONG_BITS
  by_cases h : v = 0
  · subst h
    rfl
  · have h64 : v < 16 ^ 64 := lt_of_lt_of_le hv (by norm_num)
    rw [if_neg h, digitsLoop_eq_digits 64 v [] (Nat.pos_of_ne_zero h) h64, List.append_nil]

theorem toInt_emod (v : Nat) :
    toInt v % (2 : Int) ^ INT_BITS = ((v % 2 ^ INT_BITS : Nat) : Int) := by
  have hlt : v % 2 ^ INT_BITS < 2 ^ INT_BITS := Nat.mod_lt _ (by unfold INT_BITS; norm_num)
  have hlt2 : ((v % 2 ^ INT_BITS : Nat) : Int) < (2 : Int) ^ INT_BITS := by exact_mod_cast hlt
  unfold toInt
  split_ifs with h
  · exact Int.emod_eq_of_lt (Int.natCast_nonneg _) hlt2
  · rw [Int.sub_emod, Int.emod_self, sub_zero, Int.emod_emod_of_dvd _ (dvd_refl _)]
    exact Int.emod_eq_of_lt (Int.natCast_nonneg _) hlt2

theorem insert_eq {bits S : Nat} (os : OStream) (D : HexIntClass bits S)
    (hg : os.good = true) :
    HexIntClass.insert os D =
      { os with
        out := os.out ++ pad os.flags.setHexBase.setUppercase '0' S
          (insertedPrefix os.flags D.data) (insertedDigits D.data),
        fill := '0', width := 0 } := by
  have hg2 : OStream.good
      { os with flags := os.flags.setHexBase.setUppercase, width := S, fill := '0' }
        = true := hg
  have h1 : os.flags.setHexBase.setUppercase.isHex = true := rfl
  have h2 : os.flags.setHexBase.setUppercase.uppercase = true := rfl
  have h3 : os.flags.setHexBase.setUppercase.showbase = os.flags.showbase := rfl
  have h4 : ((((D.data % 2 ^ INT_BITS : Nat) : Int)) % (2 : Int) ^ LONG_BITS).toNat
      = D.data % 2 ^ INT_BITS := by
    have hlt : D.data % 2 ^ INT_BITS < 2 ^ LONG_BITS :=
      lt_trans (Nat.mod_lt _ (by unfold INT_BITS; norm_num)) (by unfold INT_BITS LONG_BITS; norm_num)
    have := castT_natCast LONG_BITS (D.data % 2 ^ INT_BITS)
    unfold castT at this
    rw [this, Nat.mod_eq_of_lt hlt]
  unfold HexIntClass.insert OStream.putInt OStream.setfill OStream.setw numText
  simp only [hg2, h1, h2, h3, Bool.true_or, if_true, toInt_emod, h4, insertedPrefix,
    insertedDigits]

theorem putInt_of_not_good (os : OStream) (n : Int) (hg : os.good = false) :
    os.putInt n = if os.badbit then { os with failbit := true } else os := by
  unfold OStream.putInt
  rw [if_neg (by rw [hg]; exact Bool.false_ne_true)]

theorem insert_of_not_good {bits S : Nat} (os : OStream) (D : HexIntClass bits S)
    (hg : os.good = false) :
    (HexIntClass.insert os D).out = os.out ∧ (HexIntClass.insert os D).width = S ∧
      (HexIntClass.insert os D).fill = '0' ∧ (HexIntClass.insert os D).flags = os.flags := by
  have hg2 : OStream.good
      { os with flags := os.flags.setHexBase.setUppercase, width := S, fill := '0' }
        = false := hg
  have key : HexIntClass.insert os D =
      { OStream.putInt
          { os with flags := os.flags.setHexBase.setUppercase, width := S, fill := '0' }
          (toInt D.data) with flags := os.flags } := rfl
  rw [key, putInt_of_not_good _ _ hg2]
  split_ifs <;> exact ⟨rfl, rfl, rfl, rfl⟩

/-! ## The reference text -/

theorem digits_length_le {S v : Nat} (hv : v < 16 ^ S) : (Nat.digits 16 v).length ≤ S := by
  by_cases h0 : v = 0
  · simp [h0]
  · have h1 := Nat.base_pow_length_digits_le 16 v (by norm_num) h0
    have h2 : 16 ^ (Nat.digits 16 v).length < 16 ^ (S + 1) := by
      rw [pow_succ]
      omega
    have h3 := (Nat.pow_lt_pow_iff_right (by norm_num : 1 < 16)).mp h2
    omega

theorem hexText_length {S v : Nat} (hv : v < 16 ^ S) : (hexText S v).length = S := by
  unfold hexText
  rw [List.leftpad_length, List.length_map, List.length_reverse]
  exact Nat.max_eq_left (digits_length_le hv)

theorem hexText_all_hex (S v : Nat) : ∀ c ∈ hexText S v, isHexDigit c = true := by
  intro c hc
  unfold hexText List.leftpad at hc
  rcases List.mem_append.mp hc with h | h
  · rw [(List.mem_replicate.mp h).2]
    rfl
  · obtain ⟨d, hd, rfl⟩ := List.mem_map.mp h
    exact (upperHexDigit_spec (Nat.digits_lt_base (by norm_num) (List.mem_reverse.mp hd))).1

theorem hexNumber_replicate_zero_append (k : Nat) (s : List Char) :
    hexNumber (List.replicate k '0' ++ s) = hexNumber s := by
  induction k with
  | zero => rfl
  | succ k ih =>
    rw [List.replicate_succ, List.cons_append]
    unfold hexNumber at ih ⊢
    rw [List.foldl_cons]
    exact ih

theorem hexNumber_map_upper (l : List Nat) (h : ∀ d ∈ l, d < 16) :
    hexNumber (l.reverse.map upperHexDigit) = Nat.ofDigits 16 l := by
  induction l with
  | nil => rfl
  | cons d l ih =>
    rw [List.reverse_cons, List.map_append, List.map_singleton, hexNumber_append_singleton,
      ih (fun e he => h e (by simp [he])), (upperHexDigit_spec (h d (by simp))).2,
      Nat.ofDigits_cons]
    omega

theorem hexNumber_hexText (S v : Nat) : hexNumber (hexText S v) = v := by
  unfold hexText List.leftpad
  rw [hexNumber_replicate_zero_append,
    hexNumber_map_upper _ (fun d hd => Nat.digits_lt_base (by norm_num) hd), Nat.ofDigits_digits]

theorem insert_init_out {bits S : Nat} (hc : Canonical bits S) (v : Nat) (hv : v < 2 ^ bits) :
    (HexIntClass.insert OStream.init ({ m_data := v } : HexIntClass bits S)).out
      = hexText S v := by
  obtain ⟨-, hb, hS⟩ := canonical_pow hc
  have h32 : v < 2 ^ 32 := lt_of_lt_of_le hv (Nat.pow_le_pow_right (by norm_num) hb)
  have hm : v % 2 ^ INT_BITS = v := Nat.mod_eq_of_lt h32
  rw [insert_eq OStream.init _ rfl]
  simp only [HexIntClass.data, insertedPrefix, insertedDigits, hm, intToChar_hex_upper v h32]
  unfold hexText List.leftpad
  by_cases h0 : v = 0
  · subst h0
    obtain ⟨k, rfl⟩ : ∃ k, S = k + 1 := ⟨S - 1, by omega⟩
    simp [pad, OStream.init, FmtFlags.init, FmtFlags.isLeft, FmtFlags.isInternal,
      FmtFlags.setHexBase, FmtFlags.setUppercase, List.replicate_succ']
  · simp [pad, OStream.init, FmtFlags.init, FmtFlags.isLeft, FmtFlags.isInternal,
      FmtFlags.setHexBase, FmtFlags.setUppercase, h0]

/-! ## Claims -/

/-- C1 (round trip). For each canonical instantiation and every value `v` of `T`,
encoding `v` to a fresh default-formatted sink and decoding the written text into a
fresh instance succeeds and yields `v`. -/
theorem round_trip (bits S : Nat) (hc : Canonical bits S) (v : Nat) (hv : v < 2 ^ bits) :
    (HexIntClass.extract
        (IStream.ofText (HexIntClass.insert OStream.init
          ({ m_data := v } : HexIntClass bits S)).out)
        (HexIntClass.new bits S)).1.toBool = true ∧
    (HexIntClass.extract
        (IStream.ofText (HexIntClass.insert OStream.init
          ({ m_data := v } : HexIntClass bits S)).out)
        (HexIntClass.new bits S)).2.data = v := by
  have hlen : (hexText S v).length = S := hexText_length (by rw [(canonical_pow hc).1]; exact hv)
  have hh : ∀ c ∈ (IStream.ofText (hexText S v)).rest.take S, isHexDigit c = true :=
    fun c hm => hexText_all_hex S v c (List.mem_of_mem_take hm)
  rw [insert_init_out hc v hv,
    extract_hex_field hc (IStream.ofText (hexText S v)) _ rfl (by simp [IStream.ofText, hlen]) hh]
  refine ⟨rfl, ?_⟩
  show hexNumber ((hexText S v).take S) = v
  rw [List.take_of_length_le (by omega), hexNumber_hexText]

/-- Witness of C1 at the largest 32-bit value. -/
theorem round_trip_witness :
    (HexIntClass.extract
        (IStream.ofText (HexIntClass.insert OStream.init
          ({ m_data := 4294967295 } : HexInt32)).out)
        (HexIntClass.new 32 8)).1.toBool = true ∧
    (HexIntClass.extract
        (IStream.ofText (HexIntClass.insert OStream.init
          ({ m_data := 4294967295 } : HexInt32)).out)
        (HexIntClass.new 32 8)).2.data = 4294967295 :=
  round_trip 32 8 (by decide) 4294967295 (by norm_num)

/-- C2 (encode reference format). For each canonical instantiation and every value
`v` of `T`, encode on a default-formatted sink writes exactly `S` characters: the
base-16 representation of `v` in the digits `0-9`, `A-F`, left-padded with `'0'` to
width `S`; the text denotes `v`. -/
theorem encode_reference_format (bits S : Nat) (hc : Canonical bits S) (v : Nat)
    (hv : v < 2 ^ bits) :
    (HexIntClass.insert OStream.init ({ m_data := v } : HexIntClass bits S)).out
      = hexText S v ∧
    (HexIntClass.insert OStream.init ({ m_data := v } : HexIntClass bits S)).out.length = S ∧
    hexNumber (HexIntClass.insert OStream.init ({ m_data := v } : HexIntClass bits S)).out
      = v := by
  rw [insert_init_out hc v hv]
  exact ⟨rfl, hexText_length (by rw [(canonical_pow hc).1]; exact hv), hexNumber_hexText S v⟩

/-- Witness of C2: the value 1 with `S = 8` is written as `00000001`, the value 0
with `S = 2` as `00`, and the largest 16-bit value as `FFFF`. -/
theorem encode_reference_format_witness :
    (HexIntClass.insert OStream.init ({ m_data := 1 } : HexInt32)).out = "00000001".toList ∧
    (HexIntClass.insert OStream.init ({ m_data := 0 } : HexInt8)).out = "00".toList ∧
    (HexIntClass.insert OStream.init ({ m_data := 65535 } : HexInt16)).out = "FFFF".toList :=
  ⟨(encode_reference_format 32 8 (by decide) 1 (by norm_num)).1.trans (by
      norm_num [hexText, List.leftpad, upperHexDigit]; rfl),
    (encode_reference_format 8 2 (by decide) 0 (by norm_num)).1.trans (by
      norm_num [hexText, List.leftpad, upperHexDigit]; rfl),
    (encode_reference_format 16 4 (by decide) 65535 (by norm_num)).1.trans (by
      norm_num [hexText, List.leftpad, upperHexDigit])⟩

theorem extract_hex_field_data {bits S : Nat} (hc : Canonical bits S) (is : IStream)
    (D : HexIntClass bits S) (hg : is.good = true) (hS : S ≤ is.rest.length)
    (hh : ∀ c ∈ is.rest.take S, isHexDigit c = true) :
    (HexIntClass.extract is D).1.toBool = true ∧
    (HexIntClass.extract is D).2.data = hexNumber (is.rest.take S) := by
  have hf : is.failbit = false ∧ is.eofbit = false ∧ is.badbit = false := by
    simpa [IStream.good, and_assoc] using hg
  rw [extract_hex_field hc is D hg hS hh]
  exact ⟨by simp [IStream.toBool, IStream.fail, hf.1, hf.2.2], rfl⟩

/-- C3 (decode reference value). For each canonical instantiation, every good
stream whose first `S` unread characters are hexadecimal digits of either case, and
every prior value, decode succeeds and sets the value to exactly the base-16
number those `S` characters denote. -/
theorem decode_reference_value (bits S : Nat) (hc : Canonical bits S) (is : IStream)
    (D : HexIntClass bits S) (hg : is.good = true) (hS : S ≤ is.rest.length)
    (hh : ∀ c ∈ is.rest.take S, isHexDigit c = true) :
    (HexIntClass.extract is D).1.toBool = true ∧
    (HexIntClass.extract is D).2.data = hexNumber (is.rest.take S) :=
  extract_hex_field_data hc is D hg hS hh

/-- Witness of C3: the mixed-case text `aB` overwrites the prior value 7 of a
`HexInt8` with `0xAB`. -/
theorem decode_reference_value_witness :
    (HexIntClass.extract (IStream.ofText "aB!".toList) ({ m_data := 7 } : HexInt8)).1.toBool
      = true ∧
    (HexIntClass.extract (IStream.ofText "aB!".toList) ({ m_data := 7 } : HexInt8)).2.data
      = 171 :=
  decode_reference_value 8 2 (by decide) (IStream.ofText "aB!".toList) { m_data := 7 } rfl
    (by decide) (by decide)

/-- C4 (insufficient input). For every instantiation and every input stream with
fewer than `S` unread characters, decode fails (the stream is left failed) and the
value is what it was before the call; a fresh instance keeps 0. -/
theorem decode_insufficient_input (bits S : Nat) (is : IStream) (D : HexIntClass bits S)
    (hS : is.rest.length < S) :
    (HexIntClass.extract is D).1.fail = true ∧
    (HexIntClass.extract is D).1.toBool = false ∧
    (HexIntClass.extract is D).2 = D ∧
    (HexIntClass.extract is (HexIntClass.new bits S)).2.data = 0 := by
  obtain ⟨h1, h2⟩ := extract_of_short is D hS
  refine ⟨by simp [IStream.fail, h1], by simp [IStream.toBool, IStream.fail, h1], h2, ?_⟩
  rw [(extract_of_short is (HexIntClass.new bits S) hS).2]
  rfl

/-- Witness of C4: three characters are too few for a 16-bit instance holding
`0x0304`. -/
theorem decode_insufficient_input_witness :
    (HexIntClass.extract (IStream.ofText "0a0".toList) ({ m_data := 772 } : HexInt16)).1.fail
      = true ∧
    (HexIntClass.extract (IStream.ofText "0a0".toList) ({ m_data := 772 } : HexInt16)).1.toBool
      = false ∧
    (HexIntClass.extract (IStream.ofText "0a0".toList) ({ m_data := 772 } : HexInt16)).2
      = { m_data := 772 } ∧
    (HexIntClass.extract (IStream.ofText "0a0".toList) (HexIntClass.new 16 4)).2.data = 0 :=
  decode_insufficient_input 16 4 (IStream.ofText "0a0".toList) { m_data := 772 } (by decide)

theorem extractAll_fields (insts : List (Nat × Nat)) (fields : List (List Char))
    (suffix : List Char) (is : IStream) (hg : is.good = true)
    (hr : is.rest = fields.flatten ++ suffix)
    (hc : ∀ p ∈ insts, Canonical p.1 p.2)
    (hl : fields.map List.length = insts.map Prod.snd)
    (hh : ∀ f ∈ fields, ∀ c ∈ f, isHexDigit c = true) :
    extractAll insts is = ({ is with rest := suffix }, fields.map hexNumber) := by
  induction insts generalizing fields is with
  | nil =>
    cases fields with
    | nil =>
      simp only [List.flatten_nil, List.nil_append] at hr
      simp [extractAll, ← hr]
    | cons f fs => simp at hl
  | cons p more ih =>
    obtain ⟨bits, S⟩ := p
    cases fields with
    | nil => simp at hl
    | cons f fs =>
      simp only [List.map_cons, List.cons.injEq] at hl
      obtain ⟨hlf, hlr⟩ := hl
      have hr2 : is.rest = f ++ (fs.flatten ++ suffix) := by
        rw [hr, List.flatten_cons, List.append_assoc]
      have htake : is.rest.take S = f := by
        rw [hr2, ← hlf, List.take_left']
        rfl
      have hdrop : is.rest.drop S = fs.flatten ++ suffix := by
        rw [hr2, ← hlf, List.drop_left']
        rfl
      have hS : S ≤ is.rest.length := by
        rw [hr2, List.length_append]
        simp only [← hlf]
        omega
      have hex := extract_hex_field (hc (bits, S) (by simp)) is (HexIntClass.new bits S) hg hS
        (by rw [htake]; exact hh f (by simp))
      have hrec := ih fs { is with rest := is.rest.drop S } hg hdrop
        (fun q hq => hc q (by simp [hq])) hlr (fun g hg2 => hh g (by simp [hg2]))
      simp only [extractAll, hex, hrec, htake, HexIntClass.data, List.map_cons]

/-- C5 (sequential consumption). A successful decode advances the cursor by exactly
`S` characters and leaves the rest of the input untouched; hence for every list of
canonical instantiations and every input that is the concatenation of hexadecimal
fields of their widths followed by any suffix, the chained decode over one stream
gives each instance the base-16 value of its own field, and leaves the stream good
with exactly the suffix unread. -/
theorem sequential_consumption (insts : List (Nat × Nat)) (fields : List (List Char))
    (suffix : List Char)
    (hc : ∀ p ∈ insts, Canonical p.1 p.2)
    (hl : fields.map List.length = insts.map Prod.snd)
    (hh : ∀ f ∈ fields, ∀ c ∈ f, isHexDigit c = true) :
    (∀ (bits S : Nat) (is : IStream) (D : HexIntClass bits S),
      (HexIntClass.extract is D).1.toBool = true →
        (HexIntClass.extract is D).1 = { is with rest := is.rest.drop S } ∧
        S ≤ is.rest.length) ∧
    extractAll insts (IStream.ofText (fields.flatten ++ suffix))
      = (IStream.ofText suffix, fields.map hexNumber) := by
  refine ⟨?_, extractAll_fields insts fields suffix (IStream.ofText (fields.flatten ++ suffix))
    rfl rfl hc hl hh⟩
  intro bits S is D hok
  by_cases hg : is.good = true
  · by_cases hS : S ≤ is.rest.length
    · rw [extract_of_enough is D hg hS]
      exact ⟨rfl, hS⟩
    · have := (extract_of_short is D (Nat.lt_of_not_le hS)).1
      simp [IStream.toBool, IStream.fail, this] at hok
  · simp [HexIntClass.extract, IStream.read, hg, IStream.toBool, IStream.fail] at hok

/-- Witness of C5: the worked example of `main`. -/
theorem sequential_consumption_witness :
    extractAll [(8, 2), (8, 2), (16, 4), (16, 4), (32, 8), (32, 8)]
        (IStream.ofText "0102030405060708090a0b0c0d0e0f".toList)
      = (IStream.ofText "0f".toList,
          [0x01, 0x02, 0x0304, 0x0506, 0x0708090a, 0x0b0c0d0e]) :=
  (sequential_consumption [(8, 2), (8, 2), (16, 4), (16, 4), (32, 8), (32, 8)]
    ["01".toList, "02".toList, "0304".toList, "0506".toList, "0708090a".toList,
      "0b0c0d0e".toList]
    "0f".toList (by decide) (by decide) (by decide)).2

/-- C6, as stated, fails: on a good sink configured with fill `'*'` and width 12,
encode leaves the fill character `'0'` and the width 0 behind. -/
theorem scoped_formatting_counterexample :
    (HexIntClass.insert { OStream.init with fill := '*', width := 12 }
        ({ m_data := 42 } : HexInt8)).fill ≠ '*' ∧
    (HexIntClass.insert { OStream.init with fill := '*', width := 12 }
        ({ m_data := 42 } : HexInt8)).width ≠ 12 := by
  decide

/-- C6 (amended). For every sink state (formatting state and error bits, with the
default exception mask) and every value, the format flags of the sink (numeric base,
letter case, adjustment and all other flags) after encode are identical to those
before the call; and on every good sink the field width is 0 after the call. -/
theorem scoped_formatting_flags (bits S : Nat) (os : OStream) (D : HexIntClass bits S) :
    (HexIntClass.insert os D).flags = os.flags ∧
    (os.good = true → (HexIntClass.insert os D).width = 0) := by
  constructor
  · by_cases hg : os.good = true
    · rw [insert_eq os D hg]
    · exact (insert_of_not_good os D (by simpa using hg)).2.2.2
  · intro hg
    rw [insert_eq os D hg]

/-- Witness of C6 (amended): a good sink set to octal, left-adjusted, fill `'*'` and
width 12 has the same flags after encode, and width 0. -/
theorem scoped_formatting_flags_witness :
    (HexIntClass.insert
        { OStream.init with
          flags := { FmtFlags.init with dec := false, oct := true, left := true },
          fill := '*', width := 12 }
        ({ m_data := 42 } : HexInt8)).flags
      = { FmtFlags.init with dec := false, oct := true, left := true } ∧
    (HexIntClass.insert
        { OStream.init with
          flags := { FmtFlags.init with dec := false, oct := true, left := true },
          fill := '*', width := 12 }
        ({ m_data := 42 } : HexInt8)).width = 0 :=
  ⟨(scoped_formatting_flags 8 2
      { OStream.init with
        flags := { FmtFlags.init with dec := false, oct := true, left := true },
        fill := '*', width := 12 }
      { m_data := 42 }).1,
    (scoped_formatting_flags 8 2
      { OStream.init with
        flags := { FmtFlags.init with dec := false, oct := true, left := true },
        fill := '*', width := 12 }
      { m_data := 42 }).2 rfl⟩

/-- C7 fails on the code: with `left` set on the sink the value 1 of a `HexInt32`
is written as `10000000`, and with `showbase` set the value 1 of a `HexInt8` is
written as the three characters `0X1`; a default sink gets `00000001` and `01`. -/
theorem format_depends_on_prior_flags :
    (HexIntClass.insert { OStream.init with flags := { FmtFlags.init with left := true } }
        ({ m_data := 1 } : HexInt32)).out = "10000000".toList ∧
    (HexIntClass.insert OStream.init ({ m_data := 1 } : HexInt32)).out = "00000001".toList ∧
    (HexIntClass.insert { OStream.init with flags := { FmtFlags.init with showbase := true } }
        ({ m_data := 1 } : HexInt8)).out = "0X1".toList ∧
    (HexIntClass.insert OStream.init ({ m_data := 1 } : HexInt8)).out = "01".toList := by
  decide

/-- C8, as stated, fails: white space in front is skipped (`" 1"` decodes to 1), a
sign is taken (`"-1"` decodes to 255), a `0x` prefix is taken (`"0x1f"` decodes to
31), and a magnitude above `LONG_MAX` is clamped (sixteen `F`s decode to
`2 ^ 63 - 1` for a 64-bit type); in each case the hexadecimal prefix of the buffer
denotes another number. -/
theorem lenient_parse_counterexample :
    (HexIntClass.extract (IStream.ofText " 1".toList) (HexIntClass.new 8 2)).2.data
      ≠ hexNumber (hexPrefix " 1".toList) % 2 ^ 8 ∧
    (HexIntClass.extract (IStream.ofText "-1".toList) (HexIntClass.new 8 2)).2.data
      ≠ hexNumber (hexPrefix "-1".toList) % 2 ^ 8 ∧
    (HexIntClass.extract (IStream.ofText "0x1f".toList) (HexIntClass.new 16 4)).2.data
      ≠ hexNumber (hexPrefix "0x1f".toList) % 2 ^ 16 ∧
    (HexIntClass.extract (IStream.ofText "FFFFFFFFFFFFFFFF".toList)
        (HexIntClass.new 64 16)).2.data
      ≠ hexNumber (hexPrefix "FFFFFFFFFFFFFFFF".toList) % 2 ^ 64 := by
  decide

/-- C8 (amended). For every instantiation and every `S`-character buffer that starts
with neither white space, nor a sign, nor `0x`/`0X` followed by a hexadecimal digit,
decode succeeds and sets the value to the base-16 number denoted by the longest
prefix of hexadecimal digits of the buffer (0 when that prefix is empty), clamped to
`LONG_MAX = 2 ^ 63 - 1` and converted to `T`; everything from the first character
that is not a hexadecimal digit on is ignored. -/
theorem lenient_parse (bits S : Nat) (is : IStream) (D : HexIntClass bits S)
    (hg : is.good = true) (hS : S ≤ is.rest.length)
    (h1 : startsWithSpaceOrSign (is.rest.take S) = false)
    (h2 : startsWith0x (is.rest.take S) = false) :
    (HexIntClass.extract is D).1.toBool = true ∧
    (HexIntClass.extract is D).2.data
      = min (hexNumber (hexPrefix (is.rest.take S))) (2 ^ 63 - 1) % 2 ^ bits := by
  have hf : is.failbit = false ∧ is.eofbit = false ∧ is.badbit = false := by
    simpa [IStream.good, and_assoc] using hg
  rw [extract_of_enough is D hg hS, strtol_cstr_of_plain _ h1 h2]
  refine ⟨by simp [IStream.toBool, IStream.fail, hf.1, hf.2.2], ?_⟩
  show castT bits _ = _
  have hL : LONG_MAX = ((2 ^ 63 - 1 : Nat) : Int) := by
    unfold LONG_MAX LONG_BITS
    norm_num
  rw [hL]
  split_ifs with h
  · have h3 : 2 ^ 63 - 1 < hexNumber (hexPrefix (is.rest.take S)) := by exact_mod_cast h
    rw [castT_natCast, Nat.min_eq_right (le_of_lt h3)]
  · have h3 : ¬ 2 ^ 63 - 1 < hexNumber (hexPrefix (is.rest.take S)) := by exact_mod_cast h
    rw [castT_natCast, Nat.min_eq_left (Nat.le_of_not_lt h3)]

/-- Witness of C8 (amended): in the buffer `1g2h` the parse stops at `g`. -/
theorem lenient_parse_witness :
    (HexIntClass.extract (IStream.ofText "1g2h".toList) ({ m_data := 9 } : HexInt16)).1.toBool
      = true ∧
    (HexIntClass.extract (IStream.ofText "1g2h".toList) ({ m_data := 9 } : HexInt16)).2.data
      = 1 :=
  lenient_parse 16 4 (IStream.ofText "1g2h".toList) { m_data := 9 } rfl (by decide) (by decide)
    (by decide)

theorem hex_digit_case (c : Char) (h : isHexDigit c = true) :
    isHexDigit c.toLower = true ∧ isHexDigit c.toUpper = true ∧
    hexDigitValue c.toLower = hexDigitValue c ∧ hexDigitValue c.toUpper = hexDigitValue c := by
  have hb : 48 ≤ c.toNat ∧ c.toNat ≤ 102 := by
    unfold isHexDigit at h
    simp only [Bool.or_eq_true, Bool.and_eq_true, decide_eq_true_eq] at h
    omega
  have hc : c = Char.ofNat c.toNat := (Char.ofNat_toNat c).symm
  revert h
  rw [hc]
  generalize c.toNat = n at hb
  obtain ⟨h1, h2⟩ := hb
  interval_cases n <;> decide

theorem hexNumber_map_case (s : List Char) (h : ∀ c ∈ s, isHexDigit c = true) :
    hexNumber (s.map Char.toLower) = hexNumber s ∧
    hexNumber (s.map Char.toUpper) = hexNumber s := by
  induction s using List.reverseRecOn with
  | nil => exact ⟨rfl, rfl⟩
  | append_singleton s c ih =>
    obtain ⟨ih1, ih2⟩ := ih (fun d hd => h d (by simp [hd]))
    obtain ⟨-, -, h3, h4⟩ := hex_digit_case c (h c (by simp))
    simp only [List.map_append, List.map_singleton, hexNumber_append_singleton, ih1, ih2, h3, h4,
      and_self]

/-- C9 (case-insensitive decode). For each canonical instantiation and every
`S`-character text `s` of hexadecimal digits, decoding the all-lowercase form of `s`
and decoding its all-uppercase form both succeed and yield equal values, namely the
number that `s` denotes. -/
theorem decode_case_insensitive (bits S : Nat) (hc : Canonical bits S) (s : List Char)
    (hl : s.length = S) (hh : ∀ c ∈ s, isHexDigit c = true) (D E : HexIntClass bits S) :
    (HexIntClass.extract (IStream.ofText (s.map Char.toLower)) D).1.toBool = true ∧
    (HexIntClass.extract (IStream.ofText (s.map Char.toUpper)) E).1.toBool = true ∧
    (HexIntClass.extract (IStream.ofText (s.map Char.toLower)) D).2.data
      = (HexIntClass.extract (IStream.ofText (s.map Char.toUpper)) E).2.data ∧
    (HexIntClass.extract (IStream.ofText (s.map Char.toUpper)) E).2.data = hexNumber s := by
  have hlo : ∀ c ∈ (IStream.ofText (s.map Char.toLower)).rest.take S, isHexDigit c = true := by
    intro c hm
    obtain ⟨d, hd, rfl⟩ := List.mem_map.mp (List.mem_of_mem_take hm)
    exact (hex_digit_case d (hh d hd)).1
  have hup : ∀ c ∈ (IStream.ofText (s.map Char.toUpper)).rest.take S, isHexDigit c = true := by
    intro c hm
    obtain ⟨d, hd, rfl⟩ := List.mem_map.mp (List.mem_of_mem_take hm)
    exact (hex_digit_case d (hh d hd)).2.1
  obtain ⟨a1, a2⟩ := extract_hex_field_data hc (IStream.ofText (s.map Char.toLower)) D rfl
    (by simp [IStream.ofText, hl]) hlo
  obtain ⟨b1, b2⟩ := extract_hex_field_data hc (IStream.ofText (s.map Char.toUpper)) E rfl
    (by simp [IStream.ofText, hl]) hup
  have e1 : hexNumber ((IStream.ofText (s.map Char.toLower)).rest.take S) = hexNumber s := by
    show hexNumber ((s.map Char.toLower).take S) = hexNumber s
    rw [List.take_of_length_le (by simp [hl]), (hexNumber_map_case s hh).1]
  have e2 : hexNumber ((IStream.ofText (s.map Char.toUpper)).rest.take S) = hexNumber s := by
    show hexNumber ((s.map Char.toUpper).take S) = hexNumber s
    rw [List.take_of_length_le (by simp [hl]), (hexNumber_map_case s hh).2]
  exact ⟨a1, b1, by rw [a2, b2, e1, e2], by rw [b2, e2]⟩

/-- Witness of C9: `0a` and `0A` both decode to 10 with `S = 2`. -/
theorem decode_case_insensitive_witness :
    (HexIntClass.extract (IStream.ofText "0a".toList) (HexIntClass.new 8 2)).1.toBool = true ∧
    (HexIntClass.extract (IStream.ofText "0A".toList) (HexIntClass.new 8 2)).1.toBool = true ∧
    (HexIntClass.extract (IStream.ofText "0a".toList) (HexIntClass.new 8 2)).2.data
      = (HexIntClass.extract (IStream.ofText "0A".toList) (HexIntClass.new 8 2)).2.data ∧
    (HexIntClass.extract (IStream.ofText "0A".toList) (HexIntClass.new 8 2)).2.data = 10 :=
  decode_case_insensitive 8 2 (by decide) "0a".toList rfl (by decide) (HexIntClass.new 8 2)
    (HexIntClass.new 8 2)

/-- C10 fails on the code: a 64-bit instance that decoded `0000000100000000` holds
`2 ^ 32`, and encode writes sixteen `0`s for it, of which the decode is 0; and the
text of `2 ^ 64 - 1` decodes to `2 ^ 63 - 1`. -/
theorem sixty_four_bit_truncated :
    (HexIntClass.extract (IStream.ofText "0000000100000000".toList)
        (HexIntClass.new 64 16)).2.data = 4294967296 ∧
    (HexIntClass.insert OStream.init ({ m_data := 4294967296 } : HexIntClass 64 16)).out
      = "0000000000000000".toList ∧
    (HexIntClass.extract (IStream.ofText "0000000000000000".toList)
        (HexIntClass.new 64 16)).2.data = 0 ∧
    (HexIntClass.extract (IStream.ofText "FFFFFFFFFFFFFFFF".toList)
        (HexIntClass.new 64 16)).2.data = 9223372036854775807 := by
  decide

/-- C11 (equality compares the value only). For all instances `a`, `b`, `c` of one
instantiation and every `t` of type `T`: `a == b` holds iff `a.data() == b.data()`,
`a == t` holds iff `a.data() == t`, hence `a == b` iff `a == b.data()`; and the
equality of instances is reflexive, symmetric and transitive. -/
theorem equality_compares_value (bits S : Nat) (a b c : HexIntClass bits S) (t : Nat) :
    (a.eq b = true ↔ a.data = b.data) ∧
    (a.eqValue t = true ↔ a.data = t) ∧
    (a.eq b = true ↔ a.eqValue b.data = true) ∧
    a.eq a = true ∧
    (a.eq b = true ↔ b.eq a = true) ∧
    (a.eq b = true → b.eq c = true → a.eq c = true) := by
  unfold HexIntClass.eq HexIntClass.eqValue
  refine ⟨?_, ?_, Iff.rfl, ?_, ?_, ?_⟩
  · rw [beq_iff_eq]
    exact eq_comm
  · rw [beq_iff_eq]
    exact eq_comm
  · exact beq_self_eq_true _
  · rw [beq_iff_eq, beq_iff_eq]
    exact eq_comm
  · intro h1 h2
    rw [beq_iff_eq] at h1 h2 ⊢
    exact h2.trans h1

/-- Witness of C11 on 16-bit instances holding `0x0304`, `0x0304` and `0x0304`. -/
theorem equality_compares_value_witness :
    ((({ m_data := 772 } : HexInt16).eq { m_data := 772 }) = true ↔
      ({ m_data := 772 } : HexInt16).data = ({ m_data := 772 } : HexInt16).data) ∧
    (({ m_data := 772 } : HexInt16).eqValue 772 = true ↔
      ({ m_data := 772 } : HexInt16).data = 772) ∧
    ((({ m_data := 772 } : HexInt16).eq { m_data := 772 }) = true ↔
      ({ m_data := 772 } : HexInt16).eqValue ({ m_data := 772 } : HexInt16).data = true) ∧
    (({ m_data := 772 } : HexInt16).eq { m_data := 772 }) = true ∧
    ((({ m_data := 772 } : HexInt16).eq { m_data := 772 }) = true ↔
      (({ m_data := 772 } : HexInt16).eq { m_data := 772 }) = true) ∧
    ((({ m_data := 772 } : HexInt16).eq { m_data := 772 }) = true →
      (({ m_data := 772 } : HexInt16).eq { m_data := 772 }) = true →
      (({ m_data := 772 } : HexInt16).eq { m_data := 772 }) = true) :=
  equality_compares_value 16 4 { m_data := 772 } { m_data := 772 } { m_data := 772 } 772

/-! ## Buffers that start with neither white space, sign nor `0x` -/

theorem castT_clamp (bits n : Nat) :
    castT bits (if LONG_MAX < (n : Int) then LONG_MAX else (n : Int))
      = min n (2 ^ 63 - 1) % 2 ^ bits := by
  have hL : LONG_MAX = ((2 ^ 63 - 1 : Nat) : Int) := by
    unfold LONG_MAX LONG_BITS
    norm_num
  rw [hL]
  split_ifs with h
  · have h3 : 2 ^ 63 - 1 < n := by exact_mod_cast h
    rw [castT_natCast, Nat.min_eq_right (le_of_lt h3)]
  · have h3 : ¬ 2 ^ 63 - 1 < n := by exact_mod_cast h
    rw [castT_natCast, Nat.min_eq_left (Nat.le_of_not_lt h3)]

theorem extract_of_plain {bits S : Nat} (is : IStream) (D : HexIntClass bits S)
    (hg : is.good = true) (hS : S ≤ is.rest.length)
    (h1 : startsWithSpaceOrSign (is.rest.take S) = false)
    (h2 : startsWith0x (is.rest.take S) = false) :
    HexIntClass.extract is D =
      ({ is with rest := is.rest.drop S },
        { m_data := min (hexNumber (hexPrefix (is.rest.take S))) (2 ^ 63 - 1) % 2 ^ bits }) := by
  rw [extract_of_enough is D hg hS, strtol_cstr_of_plain _ h1 h2, castT_clamp]

theorem good_after_drop (is : IStream) (hg : is.good = true) (n : Nat) :
    ({ is with rest := is.rest.drop n } : IStream).good = true ∧
    ({ is with rest := is.rest.drop n } : IStream).toBool = true := by
  have hf : is.failbit = false ∧ is.eofbit = false ∧ is.badbit = false := by
    simpa [IStream.good, and_assoc] using hg
  simp [IStream.good, IStream.toBool, IStream.fail, hf.1, hf.2.1, hf.2.2]

/-- C12, as stated, fails: for `T = uint8_t` and `S = 16` the buffer
`8000000000000000` denotes `2 ^ 63`, whose truncation is 0, but decode stores 255;
with `S = 17` the buffer `10000000000000000` denotes `2 ^ 64` and decode stores 255
as well. -/
theorem mismatched_width_counterexample :
    (HexIntClass.extract (IStream.ofText "8000000000000000".toList)
        (HexIntClass.new 8 16)).2.data
      ≠ hexNumber "8000000000000000".toList % 2 ^ 8 ∧
    (HexIntClass.extract (IStream.ofText "8000000000000000".toList)
        (HexIntClass.new 8 16)).2.data = 255 ∧
    (HexIntClass.extract (IStream.ofText "10000000000000000".toList)
        (HexIntClass.new 8 17)).2.data
      ≠ hexNumber "10000000000000000".toList % 2 ^ 8 := by
  decide

/-- C12 (amended). For every instantiation with `S` larger than twice the byte size
of `T` and every `S`-character buffer of hexadecimal digits denoting `n`, decode
succeeds and sets the value to `min n (2 ^ 63 - 1)` modulo `2 ^ bits`: the unsigned
truncation of `n` for every `n` below `2 ^ 63`. -/
theorem mismatched_width_wraps (bits S : Nat) (_hw : bits < 4 * S) (is : IStream)
    (D : HexIntClass bits S) (hg : is.good = true) (hS : S ≤ is.rest.length)
    (hh : ∀ c ∈ is.rest.take S, isHexDigit c = true) :
    (HexIntClass.extract is D).1.toBool = true ∧
    (HexIntClass.extract is D).2.data
      = min (hexNumber (is.rest.take S)) (2 ^ 63 - 1) % 2 ^ bits ∧
    (hexNumber (is.rest.take S) < 2 ^ 63 →
      (HexIntClass.extract is D).2.data = hexNumber (is.rest.take S) % 2 ^ bits) := by
  obtain ⟨h1, h2⟩ := plain_of_all_hex _ hh
  rw [extract_of_plain is D hg hS h1 h2, hexPrefix_of_all _ hh]
  refine ⟨(good_after_drop is hg S).2, rfl, ?_⟩
  intro hn
  show min (hexNumber (is.rest.take S)) (2 ^ 63 - 1) % 2 ^ bits = _
  rw [Nat.min_eq_left (by omega)]

/-- Witness of C12 (amended): `uint8_t` with `S = 4` keeps the low byte of `0x1234`. -/
theorem mismatched_width_wraps_witness :
    (HexIntClass.extract (IStream.ofText "1234".toList) (HexIntClass.new 8 4)).1.toBool = true ∧
    (HexIntClass.extract (IStream.ofText "1234".toList) (HexIntClass.new 8 4)).2.data
      = min (hexNumber ("1234".toList.take 4)) (2 ^ 63 - 1) % 2 ^ 8 ∧
    (hexNumber ("1234".toList.take 4) < 2 ^ 63 →
      (HexIntClass.extract (IStream.ofText "1234".toList) (HexIntClass.new 8 4)).2.data
        = 0x34) :=
  mismatched_width_wraps 8 4 (by decide) (IStream.ofText "1234".toList) (HexIntClass.new 8 4)
    rfl (by decide) (by decide)

/-! ## Uppercase texts -/

theorem hexText_succ (S n : Nat) :
    hexText (S + 1) n = hexText S (n / 16) ++ [upperHexDigit (n % 16)] := by
  unfold hexText List.leftpad
  by_cases h0 : n = 0
  · subst h0
    simp only [Nat.zero_div, Nat.zero_mod, Nat.digits_zero, List.reverse_nil, List.map_nil,
      List.length_nil, Nat.sub_zero, List.append_nil]
    rw [List.replicate_succ']
    rfl
  · rw [Nat.digits_def' (by norm_num) (Nat.pos_of_ne_zero h0)]
    simp only [List.reverse_cons, List.map_append, List.map_cons, List.map_nil,
      List.length_append, List.length_map, List.length_reverse, List.length_singleton,
      Nat.add_sub_add_right, List.append_assoc]

theorem upperHexDigit_hexDigitValue (c : Char) (h : isUpperHexDigit c = true) :
    upperHexDigit (hexDigitValue c) = c ∧ hexDigitValue c < 16 ∧ isHexDigit c = true ∧
      c.toUpper = c := by
  have hb : 48 ≤ c.toNat ∧ c.toNat ≤ 70 := by
    unfold isUpperHexDigit at h
    simp only [Bool.or_eq_true, Bool.and_eq_true, decide_eq_true_eq] at h
    omega
  have hc : c = Char.ofNat c.toNat := (Char.ofNat_toNat c).symm
  revert h
  rw [hc]
  generalize c.toNat = n at hb
  obtain ⟨h1, h2⟩ := hb
  interval_cases n <;> decide

theorem isUpperHexDigit_toUpper (c : Char) (h : isHexDigit c = true) :
    isUpperHexDigit c.toUpper = true := by
  have hb : 48 ≤ c.toNat ∧ c.toNat ≤ 102 := by
    unfold isHexDigit at h
    simp only [Bool.or_eq_true, Bool.and_eq_true, decide_eq_true_eq] at h
    omega
  have hc : c = Char.ofNat c.toNat := (Char.ofNat_toNat c).symm
  revert h
  rw [hc]
  generalize c.toNat = n at hb
  obtain ⟨h1, h2⟩ := hb
  interval_cases n <;> decide

theorem hexText_hexNumber (s : List Char) (h : ∀ c ∈ s, isUpperHexDigit c = true) :
    hexText s.length (hexNumber s) = s := by
  induction s using List.reverseRecOn with
  | nil => simp [hexText, hexNumber, List.leftpad]
  | append_singleton s c ih =>
    obtain ⟨h1, h2, -, -⟩ := upperHexDigit_hexDigitValue c (h c (by simp))
    have e1 : (16 * hexNumber s + hexDigitValue c) / 16 = hexNumber s := by omega
    have e2 : (16 * hexNumber s + hexDigitValue c) % 16 = hexDigitValue c := by omega
    rw [List.length_append, List.length_singleton, hexNumber_append_singleton, hexText_succ,
      e1, e2, ih (fun d hd => h d (by simp [hd])), h1]

theorem map_toUpper_of_upper (s : List Char) (h : ∀ c ∈ s, isUpperHexDigit c = true) :
    s.map Char.toUpper = s := by
  induction s with
  | nil => rfl
  | cons c cs ih =>
    rw [List.map_cons, (upperHexDigit_hexDigitValue c (h c (by simp))).2.2.2,
      ih (fun d hd => h d (by simp [hd]))]

/-- C13 (decode-then-encode normalises case). For each canonical instantiation and
every `S`-character text `s` of hexadecimal digits, decoding `s` and then encoding
the instance to a default-formatted sink writes exactly the uppercase form of `s`;
for an uppercase `s` the text written is `s` itself, leading zeros included. -/
theorem decode_encode_normalises_case (bits S : Nat) (hc : Canonical bits S) (s : List Char)
    (hl : s.length = S) (hh : ∀ c ∈ s, isHexDigit c = true) (D : HexIntClass bits S) :
    (HexIntClass.insert OStream.init (HexIntClass.extract (IStream.ofText s) D).2).out
      = s.map Char.toUpper ∧
    ((∀ c ∈ s, isUpperHexDigit c = true) →
      (HexIntClass.insert OStream.init (HexIntClass.extract (IStream.ofText s) D).2).out = s) := by
  have htake : (IStream.ofText s).rest.take S = s := by
    show s.take S = s
    exact List.take_of_length_le (by omega)
  have hex := extract_hex_field hc (IStream.ofText s) D rfl (by simp [IStream.ofText, hl])
    (by rw [htake]; exact hh)
  rw [htake] at hex
  have hlt : hexNumber s < 2 ^ bits := by
    have := hexNumber_lt s hh
    rwa [hl, (canonical_pow hc).1] at this
  have hup : ∀ c ∈ s.map Char.toUpper, isUpperHexDigit c = true := by
    intro c hm
    obtain ⟨d, hd, rfl⟩ := List.mem_map.mp hm
    exact isUpperHexDigit_toUpper d (hh d hd)
  have hout : (HexIntClass.insert OStream.init (HexIntClass.extract (IStream.ofText s) D).2).out
      = s.map Char.toUpper := by
    rw [hex]
    show (HexIntClass.insert OStream.init ({ m_data := hexNumber s } : HexIntClass bits S)).out = _
    rw [insert_init_out hc _ hlt]
    have := hexText_hexNumber (s.map Char.toUpper) hup
    rwa [List.length_map, hl, (hexNumber_map_case s hh).2] at this
  refine ⟨hout, fun hu => ?_⟩
  rw [hout, map_toUpper_of_upper s hu]

/-- Witness of C13: `0a0B` is written back as `0A0B`, and `00FF` as itself. -/
theorem decode_encode_normalises_case_witness :
    (HexIntClass.insert OStream.init
        (HexIntClass.extract (IStream.ofText "0a0B".toList) (HexIntClass.new 16 4)).2).out
      = "0A0B".toList ∧
    (HexIntClass.insert OStream.init
        (HexIntClass.extract (IStream.ofText "00FF".toList) (HexIntClass.new 16 4)).2).out
      = "00FF".toList :=
  ⟨(decode_encode_normalises_case 16 4 (by decide) "0a0B".toList rfl (by decide)
      (HexIntClass.new 16 4)).1,
    (decode_encode_normalises_case 16 4 (by decide) "00FF".toList rfl (by decide)
      (HexIntClass.new 16 4)).2 (by decide)⟩

/-! ## Malformed buffers, signs and failed streams -/

theorem not_0x_of_not_hex (c : Char) (l : List Char) (hx : isHexDigit c = false) :
    startsWith0x (c :: l) = false := by
  have hc : c ≠ '0' := by
    intro h
    subst h
    revert hx
    decide
  match l with
  | [] => rfl
  | [_] => rfl
  | c1 :: c2 :: cs => simp [startsWith0x, hc]

/-- C14 (malformed buffer overwrites with zero). For every instantiation, every prior
value and every `S`-character buffer whose first character is neither a hexadecimal
digit, nor white space, nor `+` or `-`, decode reports success (the stream stays
good and the cursor advances by `S`) and overwrites the value with 0. -/
theorem malformed_buffer_zero (bits S : Nat) (is : IStream) (D : HexIntClass bits S)
    (c : Char) (tail : List Char) (hg : is.good = true) (hr : is.rest = c :: tail)
    (h0 : 0 < S) (hS : S ≤ is.rest.length)
    (hx : isHexDigit c = false) (hs : isspace c = false) (hp : c ≠ '+') (hm : c ≠ '-') :
    (HexIntClass.extract is D).1.good = true ∧
    (HexIntClass.extract is D).1.toBool = true ∧
    (HexIntClass.extract is D).1.rest = is.rest.drop S ∧
    (HexIntClass.extract is D).2.data = 0 := by
  obtain ⟨k, rfl⟩ : ∃ k, S = k + 1 := ⟨S - 1, by omega⟩
  have htake : is.rest.take (k + 1) = c :: tail.take k := by rw [hr, List.take_succ_cons]
  have h1 : startsWithSpaceOrSign (is.rest.take (k + 1)) = false := by
    rw [htake]
    simp [startsWithSpaceOrSign, hs, hp, hm]
  have h2 : startsWith0x (is.rest.take (k + 1)) = false := by
    rw [htake]
    exact not_0x_of_not_hex c _ hx
  have h3 : hexPrefix (is.rest.take (k + 1)) = [] := by
    rw [htake]
    simp [hexPrefix, List.takeWhile_cons, hx]
  rw [extract_of_plain is D hg hS h1 h2, h3]
  exact ⟨(good_after_drop is hg (k + 1)).1, (good_after_drop is hg (k + 1)).2, rfl,
    by simp [HexIntClass.data, hexNumber]⟩

/-- Witness of C14: the buffer `zz` overwrites the prior value 7 of a `HexInt8`
with 0 and leaves `01` unread on a good stream. -/
theorem malformed_buffer_zero_witness :
    (HexIntClass.extract (IStream.ofText "zz01".toList) ({ m_data := 7 } : HexInt8)).1.good
      = true ∧
    (HexIntClass.extract (IStream.ofText "zz01".toList) ({ m_data := 7 } : HexInt8)).1.toBool
      = true ∧
    (HexIntClass.extract (IStream.ofText "zz01".toList) ({ m_data := 7 } : HexInt8)).1.rest
      = "01".toList ∧
    (HexIntClass.extract (IStream.ofText "zz01".toList) ({ m_data := 7 } : HexInt8)).2.data
      = 0 :=
  malformed_buffer_zero 8 2 (IStream.ofText "zz01".toList) { m_data := 7 } 'z' "z01".toList
    rfl rfl (by decide) (by decide) (by decide) (by decide) (by decide) (by decide)

theorem cstr_of_all_hex (s : List Char) (h : ∀ c ∈ s, isHexDigit c = true) : cstr s = s := by
  unfold cstr
  apply List.takeWhile_eq_self_iff.mpr
  intro c hc
  have hx := h c hc
  have : c ≠ Char.ofNat 0 := by
    intro h0
    subst h0
    revert hx
    decide
  simpa using this

theorem strtol_minus (ds : List Char) (h : ∀ c ∈ ds, isHexDigit c = true)
    (hn : hexNumber ds < 2 ^ 63) :
    strtol (cstr ('-' :: ds)) 16 = -(hexNumber ds : Int) := by
  have hc : cstr ('-' :: ds) = '-' :: ds := by
    have := cstr_of_all_hex ds h
    unfold cstr at this ⊢
    rw [List.takeWhile_cons, if_pos (by decide), this]
  have hd : ('-' :: ds).dropWhile isspace = '-' :: ds := by
    rw [List.dropWhile_cons, if_neg (by decide)]
  have hlt : ¬ ((2 : Int) ^ (LONG_BITS - 1) < (hexNumber ds : Int)) := by
    have : ((hexNumber ds : Nat) : Int) < 2 ^ 63 := by exact_mod_cast hn
    unfold LONG_BITS
    norm_num
    omega
  rw [hc]
  unfold strtol
  simp only [hd, takeSign, if_true, takePrefix_of_not_0x ds (plain_of_all_hex ds h).2,
    accumulate_eq_foldl, hexPrefix_of_all ds h]
  exact if_neg hlt

theorem castT_neg (bits n : Nat) (hn : n ≤ 2 ^ bits) :
    castT bits (-(n : Int)) = (2 ^ bits - n) % 2 ^ bits := by
  unfold castT
  have hp : (0 : Int) < (2 : Int) ^ bits := by positivity
  have e : (-(n : Int)) % (2 : Int) ^ bits = (((2 ^ bits - n) % 2 ^ bits : Nat) : Int) := by
    rw [← Int.add_emod_self]
    have : -(n : Int) + (2 : Int) ^ bits = ((2 ^ bits - n : Nat) : Int) := by
      rw [Nat.cast_sub hn]
      push_cast
      ring
    rw [this]
    push_cast
    rfl
  rw [e, Int.toNat_natCast]

/-- C15 (a leading minus sign negates modulo the width). For each canonical
instantiation of bit width `bits` and every `S`-character buffer made of `-`
followed by `S - 1` hexadecimal digits denoting `n`, decode succeeds and sets the
value to `(2 ^ bits - n) mod 2 ^ bits`. -/
theorem leading_minus_negates (bits S : Nat) (hc : Canonical bits S) (is : IStream)
    (D : HexIntClass bits S) (ds suffix : List Char) (hg : is.good = true)
    (hr : is.rest = '-' :: ds ++ suffix) (hl : ds.length + 1 = S)
    (hh : ∀ c ∈ ds, isHexDigit c = true) :
    (HexIntClass.extract is D).1.toBool = true ∧
    (HexIntClass.extract is D).2.data = (2 ^ bits - hexNumber ds) % 2 ^ bits := by
  obtain ⟨hp, hb, -⟩ := canonical_pow hc
  have hS : S ≤ is.rest.length := by
    rw [hr, List.length_append, List.length_cons]
    omega
  have htake : is.rest.take S = '-' :: ds := by
    rw [hr, ← hl]
    exact List.take_left' rfl
  have hlt : hexNumber ds < 16 ^ ds.length := hexNumber_lt ds hh
  have hle : 16 ^ ds.length ≤ 16 ^ S := Nat.pow_le_pow_right (by norm_num) (by omega)
  have h32 : (2 : Nat) ^ bits ≤ 2 ^ 32 := Nat.pow_le_pow_right (by norm_num) hb
  rw [hp] at hle
  rw [extract_of_enough is D hg hS, htake, strtol_minus ds hh (by omega),
    castT_neg bits _ (by omega)]
  exact ⟨(good_after_drop is hg S).2, rfl⟩

/-- Witness of C15: the 2-character buffer `-1` decodes to `0xFF` for the 8-bit
type. -/
theorem leading_minus_negates_witness :
    (HexIntClass.extract (IStream.ofText "-1".toList) (HexIntClass.new 8 2)).1.toBool = true ∧
    (HexIntClass.extract (IStream.ofText "-1".toList) (HexIntClass.new 8 2)).2.data = 0xFF :=
  leading_minus_negates 8 2 (by decide) (IStream.ofText "-1".toList) (HexIntClass.new 8 2)
    "1".toList [] rfl rfl rfl (by decide)

theorem extract_of_failed {bits S : Nat} (is : IStream) (D : HexIntClass bits S)
    (hf : is.failbit = true) : HexIntClass.extract is D = (is, D) := by
  obtain ⟨rest, failbit, eofbit, badbit⟩ := is
  simp only at hf
  subst hf
  simp [HexIntClass.extract, IStream.read, IStream.good, IStream.toBool, IStream.fail]

theorem extractAll_of_failed (insts : List (Nat × Nat)) (is : IStream)
    (hf : is.failbit = true) : extractAll insts is = (is, insts.map (fun _ => 0)) := by
  induction insts with
  | nil => rfl
  | cons p more ih =>
    obtain ⟨bits, S⟩ := p
    simp only [extractAll, extract_of_failed is (HexIntClass.new bits S) hf, ih, List.map_cons]
    rfl

/-- C16 (failure consumes the tail and is sticky). When decode is attempted on a good
stream with fewer than `S` characters left, all of them are consumed and the stream
becomes failed; every later decode of any width on that stream leaves the stream as
it is (failed) and its own target unchanged, so a chain of later decodes into fresh
instances leaves every one of them at 0. -/
theorem failure_consumes_and_sticks (bits S : Nat) (is : IStream) (D : HexIntClass bits S)
    (hg : is.good = true) (hS : is.rest.length < S) :
    (HexIntClass.extract is D).1.rest = [] ∧
    (HexIntClass.extract is D).1.fail = true ∧
    (HexIntClass.extract is D).2 = D ∧
    (∀ (bits2 S2 : Nat) (E : HexIntClass bits2 S2),
      HexIntClass.extract (HexIntClass.extract is D).1 E = ((HexIntClass.extract is D).1, E)) ∧
    (∀ insts : List (Nat × Nat),
      extractAll insts (HexIntClass.extract is D).1
        = ((HexIntClass.extract is D).1, insts.map (fun _ => 0))) := by
  obtain ⟨hf, hD⟩ := extract_of_short is D hS
  have hrest : (HexIntClass.extract is D).1.rest = [] := by
    simp [HexIntClass.extract, IStream.read, hg, Nat.not_le.mpr hS, IStream.toBool,
      IStream.fail]
  exact ⟨hrest, by simp [IStream.fail, hf], hD, fun _ _ E => extract_of_failed _ E hf,
    fun insts => extractAll_of_failed insts _ hf⟩

/-- Witness of C16: three characters are too few for a `HexInt16`; they are consumed
and the `HexInt8` that follows in the chain is left unchanged. -/
theorem failure_consumes_and_sticks_witness :
    (HexIntClass.extract (IStream.ofText "0a0".toList) ({ m_data := 772 } : HexInt16)).1.rest
      = [] ∧
    (HexIntClass.extract (IStream.ofText "0a0".toList) ({ m_data := 772 } : HexInt16)).1.fail
      = true ∧
    (HexIntClass.extract
        (HexIntClass.extract (IStream.ofText "0a0".toList) ({ m_data := 772 } : HexInt16)).1
        ({ m_data := 5 } : HexInt8)).2 = { m_data := 5 } :=
  ⟨(failure_consumes_and_sticks 16 4 (IStream.ofText "0a0".toList) { m_data := 772 } rfl
      (by decide)).1,
    (failure_consumes_and_sticks 16 4 (IStream.ofText "0a0".toList) { m_data := 772 } rfl
      (by decide)).2.1,
    congrArg Prod.snd ((failure_consumes_and_sticks 16 4 (IStream.ofText "0a0".toList)
      { m_data := 772 } rfl (by decide)).2.2.2.1 8 2 { m_data := 5 })⟩

end HexStreamer
